import Mathlib

/-!
Shallow embedding of the `awsipranges` core (files under `src/src/core`) and
verification of the specified properties of its index, filter, search, manifest
construction and retry client.

Machine integers (`u8` prefix lengths, 32/128-bit addresses, `u32`/`u64` client
settings) are modelled as `Nat`; addresses are naturals below `2^32` / `2^128`.
The netmask of a prefix length `l` at width `w` is the contiguous block of the
`l` high bits, so `addr & mask = addr / 2^h * 2^h` and `addr | !mask =
addr / 2^h * 2^h + (2^h - 1)` where `h = w - l` is the number of host bits.
-/

namespace Awsipranges

/-- Mirrors `ipnetwork::IpNetwork`: an IPv4 or IPv6 CIDR, stored exactly as
given (host bits are NOT cleared by the parser or the constructors, cf. the
comment in `core/utils.rs`). -/
inductive IpNetwork where
  | V4 (addr plen : Nat)
  | V6 (addr plen : Nat)
deriving DecidableEq

namespace IpNetwork

/-- Address-space width of the family: 32 bits for IPv4, 128 for IPv6. -/
def width : IpNetwork → Nat
  | .V4 _ _ => 32
  | .V6 _ _ => 128

/-- Raw address (`Ipv4Network::ip()` / `Ipv6Network::ip()`), host bits kept. -/
def addr : IpNetwork → Nat
  | .V4 a _ => a
  | .V6 a _ => a

/-- Prefix length (`prefix()` accessor of the `ipnetwork` types). -/
def plen : IpNetwork → Nat
  | .V4 _ l => l
  | .V6 _ l => l

/-- `IpNetwork::is_ipv4`. -/
def is_ipv4 : IpNetwork → Bool
  | .V4 _ _ => true
  | .V6 _ _ => false

/-- `IpNetwork::is_ipv6`. -/
def is_ipv6 : IpNetwork → Bool
  | .V4 _ _ => false
  | .V6 _ _ => true

/-- Index of the enum variant in declaration order: the derived Rust `Ord` on
`IpNetwork` puts every `V4` before every `V6`. -/
def famIdx : IpNetwork → Nat
  | .V4 _ _ => 0
  | .V6 _ _ => 1

end IpNetwork

/-- `addr & mask` for the contiguous netmask with `h` host bits: clear the low
`h` bits, i.e. round down to a multiple of `2^h`. -/
def maskDown (a h : Nat) : Nat := a / 2 ^ h * 2 ^ h

/-- `addr | !mask` (the `broadcast()` address) for the contiguous netmask with
`h` host bits: set the low `h` bits. -/
def maskUp (a h : Nat) : Nat := a / 2 ^ h * 2 ^ h + (2 ^ h - 1)

namespace IpNetwork

/-- `utils::ipnetwork::network_prefix`: rebuild the CIDR from
`network()` (address with host bits cleared) and the same prefix length. -/
def networkForm : IpNetwork → IpNetwork
  | .V4 a l => .V4 (maskDown a (32 - l)) l
  | .V6 a l => .V6 (maskDown a (128 - l)) l

/-- A CIDR is canonical when all host bits below the prefix length are zero. -/
def Canonical (n : IpNetwork) : Prop := n.networkForm = n

instance : DecidablePred Canonical := fun n =>
  inferInstanceAs (Decidable (n.networkForm = n))

/-- `utils::ipnetwork::is_supernet_of`, dispatching to the `ipnetwork` crate's
`is_subnet_of`, which is `other.ip() <= self.ip() && other.broadcast() >=
self.broadcast()` on the raw (possibly non-canonical) addresses; mixed-family
comparisons are `false`. -/
def isSupernetOf : IpNetwork → IpNetwork → Bool
  | .V4 sa sl, .V4 ba bl =>
    decide (sa ≤ ba) && decide (maskUp ba (32 - bl) ≤ maskUp sa (32 - sl))
  | .V6 sa sl, .V6 ba bl =>
    decide (sa ≤ ba) && decide (maskUp ba (128 - bl) ≤ maskUp sa (128 - sl))
  | _, _ => false

/-- The derived Rust `Ord` on `IpNetwork`: family first (`V4 < V6`), then
address, then prefix length. -/
def lt (x y : IpNetwork) : Prop :=
  x.famIdx < y.famIdx ∨
    (x.famIdx = y.famIdx ∧
      (x.addr < y.addr ∨ (x.addr = y.addr ∧ x.plen < y.plen)))

/-- Non-strict version of the derived `Ord` on `IpNetwork`. -/
def le (x y : IpNetwork) : Prop :=
  x.famIdx < y.famIdx ∨
    (x.famIdx = y.famIdx ∧
      (x.addr < y.addr ∨ (x.addr = y.addr ∧ x.plen ≤ y.plen)))

instance : DecidableRel lt := fun x y => by unfold lt; infer_instance

instance : DecidableRel le := fun x y => by unfold le; infer_instance

end IpNetwork

/-- `AwsIpPrefix` (`core/aws_ip_prefix.rs`). The source field `prefix` is named
`net` here (`prefix` is a Lean keyword); interned `Rc<str>` handles are plain
strings (equal handles denote equal names); the `BTreeSet<Rc<str>>` of services
is a duplicate-free list whose order no claim depends on. -/
structure AwsIpPrefix where
  net : IpNetwork
  region : String
  network_border_group : String
  services : List String
deriving DecidableEq

/-- The `BTreeMap<IpNetwork, AwsIpPrefix>` of an index: an association list in
ascending key order (well-formedness is stated separately, as in the source
where the map structure maintains it). -/
abbrev PrefixMap := List (IpNetwork × AwsIpPrefix)

/-- `BTreeMap::range((Included(l), Included(u)))`: the entries with
`l ≤ k ≤ u` in ascending order. Rust's `range` panics when the start bound
exceeds the end bound; the panic is modelled as `none`. -/
def btreeRange (m : PrefixMap) (l u : IpNetwork) : Option PrefixMap :=
  if IpNetwork.le l u then
    some (m.filter fun kv =>
      decide (IpNetwork.le l kv.1) && decide (IpNetwork.le kv.1 u))
  else none

/-- `AwsIpRanges` (`core/aws_ip_ranges.rs`): manifest metadata, the interned
attribute sets, and the ordered prefix map. `create_date` (a
`DateTime<Utc>`) is modelled as an opaque instant; the `BTreeSet<Rc<str>>`
attribute sets are duplicate-free lists whose order no claim depends on. -/
structure AwsIpRanges where
  sync_token : String
  create_date : Nat
  regions : List String
  network_border_groups : List String
  services : List String
  prefixes : PrefixMap
deriving DecidableEq

namespace AwsIpRanges

/-- Family-dependent lower prefix length of the covering scan: 8 for IPv4,
16 for IPv6 (the literal bounds in `get_longest_match_prefix` /
`get_supernet_prefixes`). -/
def minPlen : IpNetwork → Nat
  | .V4 _ _ => 8
  | .V6 _ _ => 16

/-- The scan's lower bound: `new_network_prefix(value, 8|16).unwrap()` — keep
the address, adopt prefix length 8 (IPv4) or 16 (IPv6), canonicalize. The
`unwrap` always succeeds because 8 ≤ 32 and 16 ≤ 128. -/
def lowerBound (v : IpNetwork) : IpNetwork :=
  match v with
  | .V4 a _ => IpNetwork.networkForm (.V4 a 8)
  | .V6 a _ => IpNetwork.networkForm (.V6 a 16)

/-- `AwsIpRanges::get_longest_match_prefix`: walk the range
`[lowerBound v, network_prefix v]` in descending order and return the first
record whose CIDR is a supernet of `v`. The outer `none` models the
`BTreeMap::range` panic on an empty-bounds query. -/
def getLongestMatch (I : AwsIpRanges) (v : IpNetwork) :
    Option (Option AwsIpPrefix) :=
  (btreeRange I.prefixes (lowerBound v) v.networkForm).map fun entries =>
    (entries.reverse.find? fun kv => kv.2.net.isSupernetOf v).map (·.2)

/-- `AwsIpRanges::get_supernet_prefixes`: collect every record in the same
range whose CIDR is a supernet of `v`; return `None` (inner) when the
collection is empty. The records come from distinct keys in ascending order,
so the collected `BTreeSet` is exactly this list. The outer `none` models the
`BTreeMap::range` panic. -/
def getSupernets (I : AwsIpRanges) (v : IpNetwork) :
    Option (Option (List AwsIpPrefix)) :=
  (btreeRange I.prefixes (lowerBound v) v.networkForm).map fun entries =>
    let s := (entries.filter fun kv => kv.2.net.isSupernetOf v).map (·.2)
    if s.isEmpty then none else some s

/-- `AwsIpRanges::get_region` via `utils::get_rc_str_from_set`: return the
interned handle whose string equals the argument, if present. -/
def get_region (I : AwsIpRanges) (v : String) : Option String :=
  if v ∈ I.regions then some v else none

/-- `AwsIpRanges::get_network_border_group` via `utils::get_rc_str_from_set`. -/
def get_network_border_group (I : AwsIpRanges) (v : String) : Option String :=
  if v ∈ I.network_border_groups then some v else none

/-- `AwsIpRanges::get_service` via `utils::get_rc_str_from_set`. -/
def get_service (I : AwsIpRanges) (v : String) : Option String :=
  if v ∈ I.services then some v else none

end AwsIpRanges

/-- `From<BTreeMap<IpNetwork, AwsIpPrefix>> for AwsIpRanges`: keep the given
prefix map and rebuild the attribute sets as the union of those referenced by
the records; `sync_token`/`create_date` start from `Default::default()`. -/
def fromPrefixMap (m : PrefixMap) : AwsIpRanges where
  sync_token := ""
  create_date := 0
  regions := (m.map fun kv => kv.2.region).dedup
  network_border_groups := (m.map fun kv => kv.2.network_border_group).dedup
  services := (m.map fun kv => kv.2.services).flatten.dedup
  prefixes := m

/-- `BTreeMap` insert used when collecting `(prefix, record)` pairs: replace
the value when the key is present, otherwise add the entry. -/
def assocReplace (m : PrefixMap) (k : IpNetwork) (v : AwsIpPrefix) : PrefixMap :=
  if m.any fun kv => decide (kv.1 = k) then
    m.map fun kv => if kv.1 = k then (k, v) else kv
  else m ++ [(k, v)]

/-- `From<BTreeSet<AwsIpPrefix>> for AwsIpRanges`: key each record by its
CIDR and build the index from the resulting map. -/
def fromRecords (rs : List AwsIpPrefix) : AwsIpRanges :=
  fromPrefixMap (rs.foldl (fun m r => assocReplace m r.net r) [])

/-- `SearchResults` (`core/search_results.rs`). -/
structure SearchResults where
  aws_ip_ranges : AwsIpRanges
  prefix_matches : List (IpNetwork × List AwsIpPrefix)
  prefixes_not_found : List IpNetwork
deriving DecidableEq

/-- `BTreeSet<IpNetwork>` insert (order-insensitive model). -/
def setInsertNet (s : List IpNetwork) (k : IpNetwork) : List IpNetwork :=
  if k ∈ s then s else s ++ [k]

/-- `BTreeSet<AwsIpPrefix>` insert (order-insensitive model). -/
def setInsertRec (s : List AwsIpPrefix) (r : AwsIpPrefix) : List AwsIpPrefix :=
  if r ∈ s then s else s ++ [r]

/-- `BTreeMap<IpNetwork, BTreeSet<AwsIpPrefix>>` insert: replace or add. -/
def matchesInsert (m : List (IpNetwork × List AwsIpPrefix)) (k : IpNetwork)
    (v : List AwsIpPrefix) : List (IpNetwork × List AwsIpPrefix) :=
  if m.any fun kv => decide (kv.1 = k) then
    m.map fun kv => if kv.1 = k then (k, v) else kv
  else m ++ [(k, v)]

/-- Keys of the `prefix_matches` map. -/
def mapKeys (m : List (IpNetwork × List AwsIpPrefix)) : List IpNetwork :=
  m.map (·.1)

/-- The per-query loop of `AwsIpRanges::search`, threading the three
accumulators (`prefix_matches`, `prefixes_not_found`, and the running
`BTreeSet` of matched records). A panic from `get_supernet_prefixes`
propagates as `none`. -/
def searchLoop (I : AwsIpRanges) :
    List IpNetwork → List (IpNetwork × List AwsIpPrefix) → List IpNetwork →
    List AwsIpPrefix →
    Option (List (IpNetwork × List AwsIpPrefix) × List IpNetwork ×
      List AwsIpPrefix)
  | [], m, nf, acc => some (m, nf, acc)
  | q :: rest, m, nf, acc =>
    match I.getSupernets q with
    | none => none
    | some none => searchLoop I rest m (setInsertNet nf q) acc
    | some (some rs) =>
      searchLoop I rest (matchesInsert m q rs) nf (rs.foldl setInsertRec acc)

/-- `AwsIpRanges::search`: run the loop, then build the derived index from the
accumulated record set and overwrite its `sync_token`/`create_date` with the
parent's. -/
def AwsIpRanges.search (I : AwsIpRanges) (qs : List IpNetwork) :
    Option SearchResults :=
  (searchLoop I qs [] [] []).map fun t =>
    { aws_ip_ranges :=
        { fromRecords t.2.2 with
          sync_token := I.sync_token
          create_date := I.create_date }
      prefix_matches := t.1
      prefixes_not_found := t.2.1 }

/-- `PrefixType` (`core/prefix_type.rs`). -/
inductive PrefixType where
  | IPv4
  | IPv6
deriving DecidableEq

/-- `PrefixType::is_ipv4`. -/
def PrefixType.is_ipv4 : PrefixType → Bool
  | .IPv4 => true
  | .IPv6 => false

/-- `PrefixType::is_ipv6`. -/
def PrefixType.is_ipv6 : PrefixType → Bool
  | .IPv4 => false
  | .IPv6 => true

/-- `Filter` (`core/filter.rs`): `None` on a field means no restriction. -/
structure Filter where
  prefix_type : Option PrefixType
  regions : Option (List String)
  network_border_groups : Option (List String)
  services : Option (List String)

/-- `Filter::match_prefix_type`: the source's nested `if` is equivalent to
this disjunction. -/
def Filter.match_prefix_type (f : Filter) (r : AwsIpPrefix) : Bool :=
  match f.prefix_type with
  | some pt => (pt.is_ipv4 && r.net.is_ipv4) || (pt.is_ipv6 && r.net.is_ipv6)
  | none => true

/-- `Filter::match_regions`. -/
def Filter.match_regions (f : Filter) (r : AwsIpPrefix) : Bool :=
  match f.regions with
  | some rs => rs.contains r.region
  | none => true

/-- `Filter::match_network_border_groups`. -/
def Filter.match_network_border_groups (f : Filter) (r : AwsIpPrefix) : Bool :=
  match f.network_border_groups with
  | some gs => gs.contains r.network_border_group
  | none => true

/-- `Filter::match_services`: the filter's service set must intersect the
record's (`intersection(..).next().is_some()`). -/
def Filter.match_services (f : Filter) (r : AwsIpPrefix) : Bool :=
  match f.services with
  | some ss => ss.any fun s => r.services.contains s
  | none => true

/-- `Filter::include_prefix` (renamed; `prefix` is a Lean keyword): the source
folds an array of the four match functions with `all`, i.e. this
conjunction. -/
def Filter.includeRecord (f : Filter) (r : AwsIpPrefix) : Bool :=
  f.match_prefix_type r && f.match_regions r &&
    f.match_network_border_groups r && f.match_services r

/-- `AwsIpRanges::filter`: keep exactly the records passing every configured
predicate, rebuild the index from them, and copy the parent metadata. -/
def AwsIpRanges.filter (I : AwsIpRanges) (f : Filter) : AwsIpRanges :=
  let base := fromPrefixMap (I.prefixes.filter fun kv => f.includeRecord kv.2)
  { base with sync_token := I.sync_token, create_date := I.create_date }

/-- Shared shape of the `FilterBuilder` setters (`regions`,
`network_border_groups`, `services`): resolve each provided name through the
parent index, short-circuiting with `Err(format!("{errPre}{name}"))` at the
first name that does not resolve (Rust's `collect::<Result<_>>`). -/
def resolveAll (get : String → Option String) (errPre : String) :
    List String → Except String (List String)
  | [] => .ok []
  | n :: rest =>
    match get n with
    | none => .error (errPre ++ n)
    | some h => (resolveAll get errPre rest).map fun hs => h :: hs

/-- `FilterBuilder::regions`. -/
def FilterBuilder.regions (I : AwsIpRanges) (names : List String) :
    Except String (List String) :=
  resolveAll I.get_region "Invalid region: " names

/-- `FilterBuilder::network_border_groups`. -/
def FilterBuilder.network_border_groups (I : AwsIpRanges)
    (names : List String) : Except String (List String) :=
  resolveAll I.get_network_border_group "Invalid network border group: " names

/-- `FilterBuilder::services`. -/
def FilterBuilder.services (I : AwsIpRanges) (names : List String) :
    Except String (List String) :=
  resolveAll I.get_service "Invalid service: " names

/-- A decoded manifest row as consumed by the `from_json` prefix loops. -/
structure Row where
  net : IpNetwork
  region : String
  network_border_group : String
  service : String
deriving DecidableEq

/-- `JsonIpPrefix` (`core/json.rs`): `ip_prefix: Ipv4Network` is `(addr,
plen)` exactly as parsed — the `ipnetwork` parser keeps host bits. -/
structure JsonIpPrefixV4 where
  addr : Nat
  plen : Nat
  region : String
  network_border_group : String
  service : String
deriving DecidableEq

/-- `JsonIpv6Prefix` (`core/json.rs`). -/
structure JsonIpPrefixV6 where
  addr : Nat
  plen : Nat
  region : String
  network_border_group : String
  service : String
deriving DecidableEq

/-- `JsonIpRanges` (`core/json.rs`), after parsing: `createDate` modelled as
an opaque instant. -/
structure JsonIpRanges where
  sync_token : String
  create_date : Nat
  prefixes : List JsonIpPrefixV4
  ipv6_prefixes : List JsonIpPrefixV6
deriving DecidableEq

/-- View of a decoded IPv4 row as a generic row. -/
def JsonIpPrefixV4.toRow (p : JsonIpPrefixV4) : Row :=
  ⟨.V4 p.addr p.plen, p.region, p.network_border_group, p.service⟩

/-- View of a decoded IPv6 row as a generic row. -/
def JsonIpPrefixV6.toRow (p : JsonIpPrefixV6) : Row :=
  ⟨.V6 p.addr p.plen, p.region, p.network_border_group, p.service⟩

/-- The rows in the order `from_json` processes them: all IPv4 rows, then all
IPv6 rows (a V4 key never equals a V6 key, so the two loops are one fold). -/
def JsonIpRanges.rows (j : JsonIpRanges) : List Row :=
  j.prefixes.map JsonIpPrefixV4.toRow ++ j.ipv6_prefixes.map JsonIpPrefixV6.toRow

/-- `BTreeMap` insertion at the sorted position (used by
`entry(..).or_insert(..)`, whose key is absent). -/
def mapInsertSorted (m : PrefixMap) (e : IpNetwork × AwsIpPrefix) : PrefixMap :=
  match m with
  | [] => [e]
  | kv :: rest =>
    if IpNetwork.lt e.1 kv.1 then e :: kv :: rest
    else kv :: mapInsertSorted rest e

/-- In-place update of the entries with the given key
(`entry(..).and_modify(..)`; a `BTreeMap` has at most one such entry). -/
def mapModify (m : PrefixMap) (k : IpNetwork) (f : AwsIpPrefix → AwsIpPrefix) :
    PrefixMap :=
  m.map fun kv => if kv.1 = k then (kv.1, f kv.2) else kv

/-- `BTreeSet<Rc<str>>` insert (order-insensitive model). -/
def strInsert (s : List String) (x : String) : List String :=
  if x ∈ s then s else s ++ [x]

/-- One iteration of the `from_json` prefix loops:
`entry(network).and_modify(..).or_insert(..)`. The `and_modify` closure
`assert_eq!`s the stored region and network border group against the row's
(the interned-set lookups return exactly the row's own strings, so the
comparison is string equality); an assertion failure is a panic, modelled as
`none`. On success it unions the row's service into the record. -/
def rowStep (m : PrefixMap) (r : Row) : Option PrefixMap :=
  match m.find? fun kv => decide (kv.1 = r.net) with
  | some kv =>
    if kv.2.region = r.region ∧
        kv.2.network_border_group = r.network_border_group then
      some (mapModify m r.net fun p =>
        { p with services := strInsert p.services r.service })
    else none
  | none =>
    some (mapInsertSorted m
      (r.net, ⟨r.net, r.region, r.network_border_group, [r.service]⟩))

/-- The `from_json` prefix loops over all rows; a panic aborts the fold. -/
def foldRows : PrefixMap → List Row → Option PrefixMap
  | m, [] => some m
  | m, r :: rest =>
    match rowStep m r with
    | none => none
    | some m2 => foldRows m2 rest

/-- Outcome of `AwsIpRanges::from_json` on an already-decoded manifest: the
`Err` branch of the Rust `Result` arises only from `json::parse`, which is
behind us here, so the only abnormal outcome is the assertion panic. -/
inductive FromJsonResult where
  | ok (I : AwsIpRanges)
  | panic
deriving DecidableEq

/-- `AwsIpRanges::from_json`, from the decoded manifest on: build the three
interned attribute sets from all rows, then fold the prefix loops. -/
def fromJson (j : JsonIpRanges) : FromJsonResult :=
  match foldRows [] j.rows with
  | none => .panic
  | some m =>
    .ok
      { sync_token := j.sync_token
        create_date := j.create_date
        regions :=
          ((j.prefixes.map fun p => p.region) ++
            (j.ipv6_prefixes.map fun p => p.region)).dedup
        network_border_groups :=
          ((j.prefixes.map fun p => p.network_border_group) ++
            (j.ipv6_prefixes.map fun p => p.network_border_group)).dedup
        services :=
          ((j.prefixes.map fun p => p.service) ++
            (j.ipv6_prefixes.map fun p => p.service)).dedup
        prefixes := m }

/-- Well-formedness a `BTreeMap<IpNetwork, AwsIpPrefix>` keyed by canonical
CIDRs enjoys: keys strictly ascend in the derived order, each key equals its
record's CIDR, and each key is canonical. -/
def mapWellFormed (m : PrefixMap) : Prop :=
  m.Pairwise (fun a b => IpNetwork.lt a.1 b.1) ∧
    ∀ kv ∈ m, kv.1 = kv.2.net ∧ kv.1.Canonical

instance : DecidableRel fun (a b : IpNetwork × AwsIpPrefix) =>
    IpNetwork.lt a.1 b.1 :=
  fun a b => inferInstanceAs (Decidable (IpNetwork.lt a.1 b.1))

instance (m : PrefixMap) : Decidable (mapWellFormed m) := by
  unfold mapWellFormed; infer_instance

/-- Retry-relevant part of the `Client` configuration (`core/client.rs`);
`u32`/`u64` values as naturals, delays and the timeout in milliseconds. -/
structure ClientConfig where
  retry_count : Nat
  retry_initial_delay : Nat
  retry_backoff_factor : Nat
  retry_timeout : Nat
deriving DecidableEq

/-- Environment trace for one run of the retry loop: the outcome of the GET
(+ body read + JSON validation) performed at each attempt index, with the
wall-clock milliseconds it consumed. -/
inductive GetOutcome where
  | ok (duration : Nat)
  | fail (duration : Nat) (err : String)

/-- Observable outcome of `Client::get_json_from_url`: how many GET attempts
were performed, the total milliseconds spent sleeping between attempts, and
the result (the last error on exhaustion). -/
structure RetryResult where
  attempts : Nat
  totalSleep : Nat
  outcome : Except String Unit

/-- The `loop` of `Client::get_json_from_url`. `elapsed` models
`start_time.elapsed()` (GET durations plus sleeps so far; `thread::sleep`
sleeps at least — here exactly — the requested delay, which is the
worst case for the sleep budget). On failure the delay is
`retry_initial_delay * retry_backoff_factor ^ attempt`, the attempt counter
increments, and the loop continues only while `elapsed + delay <
retry_timeout` and the incremented counter is below `retry_count`. -/
def retryLoop (cfg : ClientConfig) (get : Nat → GetOutcome)
    (attempt elapsed slept : Nat) : RetryResult :=
  match get attempt with
  | .ok _ => ⟨attempt + 1, slept, .ok ()⟩
  | .fail d err =>
    let delay := cfg.retry_initial_delay * cfg.retry_backoff_factor ^ attempt
    if h : elapsed + d + delay < cfg.retry_timeout ∧
        attempt + 1 < cfg.retry_count then
      retryLoop cfg get (attempt + 1) (elapsed + d + delay) (slept + delay)
    else ⟨attempt + 1, slept, .error err⟩
termination_by cfg.retry_count - attempt
decreasing_by omega

/-!
Concrete values used to witness the theorems below, mirroring the fixture of
`aws_ip_ranges.rs`'s unit tests: `10.0.0.0/8 = 167772160`,
`10.1.0.0 = 167837696`, `10.0.0.1 = 167772161`, `192.168.0.0 = 3232235520`.
-/

/-- Record `10.0.0.0/8`, us-east-1, EC2. -/
def exRec8 : AwsIpPrefix := ⟨.V4 167772160 8, "us-east-1", "us-east-1", ["EC2"]⟩

/-- Record `10.0.0.0/16`, us-east-1, EC2. -/
def exRec16 : AwsIpPrefix :=
  ⟨.V4 167772160 16, "us-east-1", "us-east-1", ["EC2"]⟩

/-- Record `10.1.0.0/16`, us-west-1, EC2+S3. -/
def exRecW : AwsIpPrefix :=
  ⟨.V4 167837696 16, "us-west-1", "us-west-1", ["EC2", "S3"]⟩

/-- A small index over the three records above. -/
def exIndex : AwsIpRanges where
  sync_token := "1700000000"
  create_date := 1700000000
  regions := ["us-east-1", "us-west-1"]
  network_border_groups := ["us-east-1", "us-west-1"]
  services := ["EC2", "S3"]
  prefixes := [(exRec8.net, exRec8), (exRec16.net, exRec16), (exRecW.net, exRecW)]

/-- Query `10.0.0.1/32`. -/
def exQ : IpNetwork := .V4 167772161 32

/-- Query `192.168.0.0/24` (covered by no record). -/
def exNF : IpNetwork := .V4 3232235520 24

/-- A canonical two-row manifest (`10.0.0.0/8` for EC2 and for S3). -/
def exGoodJson : JsonIpRanges where
  sync_token := "1700000000"
  create_date := 1700000000
  prefixes := [⟨167772160, 8, "us-east-1", "us-east-1", "EC2"⟩,
    ⟨167772160, 8, "us-east-1", "us-east-1", "S3"⟩]
  ipv6_prefixes := []

/-- A manifest whose single row carries the non-canonical CIDR `10.0.0.1/8`
(host bits set below the prefix length — accepted verbatim by the
`ipnetwork` parser). -/
def exNoncanonJson : JsonIpRanges where
  sync_token := "1700000000"
  create_date := 1700000000
  prefixes := [⟨167772161, 8, "us-east-1", "us-east-1", "EC2"⟩]
  ipv6_prefixes := []

/-- A manifest listing `10.0.0.0/8` twice with different regions and network
border groups. -/
def exDupJson : JsonIpRanges where
  sync_token := "1700000000"
  create_date := 1700000000
  prefixes := [⟨167772160, 8, "us-east-1", "us-east-1", "EC2"⟩,
    ⟨167772160, 8, "us-west-1", "us-west-1", "EC2"⟩]
  ipv6_prefixes := []

/-- A manifest with the canonical `10.0.0.0/8` and the non-canonical
`10.0.0.1/7`: the latter sorts above every `10.0.0.0/x` key despite its
shorter prefix length. -/
def exShadowJson : JsonIpRanges where
  sync_token := "1700000000"
  create_date := 1700000000
  prefixes := [⟨167772160, 8, "us-east-1", "us-east-1", "EC2"⟩,
    ⟨167772161, 7, "us-east-1", "us-east-1", "EC2"⟩]
  ipv6_prefixes := []

/-- The default client configuration (4 attempts, 200 ms initial delay,
backoff factor 2, 5000 ms budget). -/
def exCfg : ClientConfig := ⟨4, 200, 2, 5000⟩

/-- The default configuration with `retry_count` set to `0` through
`ClientBuilder::retry_count`. -/
def exCfg0 : ClientConfig := ⟨0, 200, 2, 5000⟩

/-- A trace on which every GET attempt fails after 10 ms. -/
def exFailGet : Nat → GetOutcome := fun n => .fail 10 ("boom " ++ toString n)

/-- The record `10.0.0.1/7` (a non-canonical CIDR taken verbatim from the
manifest). -/
def c1Rec7 : AwsIpPrefix := ⟨.V4 167772161 7, "us-east-1", "us-east-1", ["EC2"]⟩

/-- The index `from_json` builds from `exShadowJson`. -/
def c1Index : AwsIpRanges where
  sync_token := "1700000000"
  create_date := 1700000000
  regions := ["us-east-1"]
  network_border_groups := ["us-east-1"]
  services := ["EC2"]
  prefixes := [(.V4 167772160 8, exRec8), (.V4 167772161 7, c1Rec7)]

/-- The value of `search` on the example index and queries
`[10.0.0.1/32, 192.168.0.0/24]`. -/
def exSearchRes : SearchResults where
  aws_ip_ranges :=
    { sync_token := "1700000000"
      create_date := 1700000000
      regions := ["us-east-1"]
      network_border_groups := ["us-east-1"]
      services := ["EC2"]
      prefixes := [(exRec8.net, exRec8), (exRec16.net, exRec16)] }
  prefix_matches := [(exQ, [exRec8, exRec16])]
  prefixes_not_found := [exNF]

/-- The record decoded from the manifest row `10.0.0.1/8`. -/
def c5Rec : AwsIpPrefix := ⟨.V4 167772161 8, "us-east-1", "us-east-1", ["EC2"]⟩

/-- The index `from_json` builds from `exNoncanonJson`. -/
def c5Index : AwsIpRanges where
  sync_token := "1700000000"
  create_date := 1700000000
  regions := ["us-east-1"]
  network_border_groups := ["us-east-1"]
  services := ["EC2"]
  prefixes := [(.V4 167772161 8, c5Rec)]

/-- The record built from the two `exGoodJson` rows (services unioned). -/
def c5GoodRec : AwsIpPrefix :=
  ⟨.V4 167772160 8, "us-east-1", "us-east-1", ["EC2", "S3"]⟩

/-- The index `from_json` builds from `exGoodJson`. -/
def c5GoodIndex : AwsIpRanges where
  sync_token := "1700000000"
  create_date := 1700000000
  regions := ["us-east-1"]
  network_border_groups := ["us-east-1"]
  services := ["EC2", "S3"]
  prefixes := [(.V4 167772160 8, c5GoodRec)]

/-- The first `10.0.0.0/8` row of `exDupJson`, as a generic row. -/
def exDupRow1 : Row := ⟨.V4 167772160 8, "us-east-1", "us-east-1", "EC2"⟩

/-- The second `10.0.0.0/8` row of `exDupJson` (different region and network
border group), as a generic row. -/
def exDupRow2 : Row := ⟨.V4 167772160 8, "us-west-1", "us-west-1", "EC2"⟩

/-! ## Arithmetic facts about the mask operations -/

theorem maskDown_le (a h : Nat) : maskDown a h ≤ a :=
  Nat.div_mul_le_self a (2 ^ h)

theorem le_maskUp (a h : Nat) : a ≤ maskUp a h := by
  have h1 := Nat.div_add_mod a (2 ^ h)
  have h2 : a % 2 ^ h < 2 ^ h := Nat.mod_lt _ (Nat.two_pow_pos h)
  unfold maskUp
  rw [Nat.mul_comm]
  omega

theorem maskUp_eq (a h : Nat) : maskUp a h = maskDown a h + (2 ^ h - 1) := rfl

/-- Rounding down to a coarser alignment gives a smaller (or equal) value. -/
theorem maskDown_mono_h (a : Nat) {h₁ h₂ : Nat} (hh : h₁ ≤ h₂) :
    maskDown a h₂ ≤ maskDown a h₁ := by
  unfold maskDown
  obtain ⟨k, rfl⟩ := Nat.exists_eq_add_of_le hh
  rw [Nat.pow_add, ← Nat.div_div_eq_div_mul]
  calc a / 2 ^ h₁ / 2 ^ k * (2 ^ h₁ * 2 ^ k)
      = a / 2 ^ h₁ / 2 ^ k * 2 ^ k * 2 ^ h₁ := by ring
    _ ≤ a / 2 ^ h₁ * 2 ^ h₁ :=
        Nat.mul_le_mul_right _ (Nat.div_mul_le_self _ _)

/-- An aligned block is determined by any point it contains: if `a` is a
multiple of `2^h` and `a ≤ p ≤ a + 2^h - 1`, then rounding `p` down to the
alignment recovers `a`. -/
theorem maskDown_eq_of_between {a h p : Nat} (ha : maskDown a h = a)
    (h₁ : a ≤ p) (h₂ : p ≤ a + (2 ^ h - 1)) : maskDown p h = a := by
  unfold maskDown at *
  have hpos : 0 < 2 ^ h := Nat.two_pow_pos h
  have hq : p / 2 ^ h = a / 2 ^ h := by
    apply Nat.div_eq_of_lt_le
    · omega
    · have hmul : (a / 2 ^ h + 1) * 2 ^ h = a / 2 ^ h * 2 ^ h + 2 ^ h := by
        ring
      omega
  rw [hq, ha]

/-- Two canonical blocks that both cover the query's broadcast point are
nested, and key order then forces prefix-length order: this is the heart of
the longest-match soundness argument. -/
theorem plen_le_of_nested {w b lb a₁ l₁ a₂ l₂ : Nat}
    (hc₁ : maskDown a₁ (w - l₁) = a₁) (hc₂ : maskDown a₂ (w - l₂) = a₂)
    (h₁a : a₁ ≤ b) (h₁u : maskUp b (w - lb) ≤ maskUp a₁ (w - l₁))
    (h₂a : a₂ ≤ b) (h₂u : maskUp b (w - lb) ≤ maskUp a₂ (w - l₂))
    (hk : a₁ < a₂ ∨ (a₁ = a₂ ∧ l₁ < l₂)) : l₁ ≤ l₂ := by
  by_contra hlt
  push_neg at hlt
  have hh : w - l₁ ≤ w - l₂ := Nat.sub_le_sub_left (le_of_lt hlt) w
  have hbp : b ≤ maskUp b (w - lb) := le_maskUp b (w - lb)
  have e₁ : maskDown (maskUp b (w - lb)) (w - l₁) = a₁ := by
    apply maskDown_eq_of_between hc₁ (le_trans h₁a hbp)
    have hup := maskUp_eq a₁ (w - l₁)
    omega
  have e₂ : maskDown (maskUp b (w - lb)) (w - l₂) = a₂ := by
    apply maskDown_eq_of_between hc₂ (le_trans h₂a hbp)
    have hup := maskUp_eq a₂ (w - l₂)
    omega
  have hmono : maskDown (maskUp b (w - lb)) (w - l₂) ≤
      maskDown (maskUp b (w - lb)) (w - l₁) :=
    maskDown_mono_h _ hh
  omega

/-- Among two canonical supernets of the same query, the key order of the
derived `Ord` on `IpNetwork` implies prefix-length order. -/
theorem plen_le_of_supernets {v s₁ s₂ : IpNetwork}
    (hc₁ : s₁.Canonical) (hc₂ : s₂.Canonical)
    (h₁ : s₁.isSupernetOf v = true) (h₂ : s₂.isSupernetOf v = true)
    (hk : s₁ = s₂ ∨ IpNetwork.lt s₁ s₂) : s₁.plen ≤ s₂.plen := by
  rcases hk with rfl | hk
  · exact le_refl _
  cases v with
  | V4 b lb =>
    cases s₁ with
    | V6 _ _ => simp [IpNetwork.isSupernetOf] at h₁
    | V4 a₁ l₁ =>
      cases s₂ with
      | V6 _ _ => simp [IpNetwork.isSupernetOf] at h₂
      | V4 a₂ l₂ =>
        simp only [IpNetwork.isSupernetOf, Bool.and_eq_true, decide_eq_true_eq]
          at h₁ h₂
        simp only [IpNetwork.Canonical, IpNetwork.networkForm,
          IpNetwork.V4.injEq, and_true] at hc₁ hc₂
        simp only [IpNetwork.lt, IpNetwork.famIdx, IpNetwork.addr,
          IpNetwork.plen, Nat.lt_irrefl, false_or, true_and] at hk
        exact plen_le_of_nested hc₁ hc₂ h₁.1 h₁.2 h₂.1 h₂.2 hk
  | V6 b lb =>
    cases s₁ with
    | V4 _ _ => simp [IpNetwork.isSupernetOf] at h₁
    | V6 a₁ l₁ =>
      cases s₂ with
      | V4 _ _ => simp [IpNetwork.isSupernetOf] at h₂
      | V6 a₂ l₂ =>
        simp only [IpNetwork.isSupernetOf, Bool.and_eq_true, decide_eq_true_eq]
          at h₁ h₂
        simp only [IpNetwork.Canonical, IpNetwork.networkForm,
          IpNetwork.V6.injEq, and_true] at hc₁ hc₂
        simp only [IpNetwork.lt, IpNetwork.famIdx, IpNetwork.addr,
          IpNetwork.plen, Nat.lt_irrefl, false_or, true_and] at hk
        exact plen_le_of_nested hc₁ hc₂ h₁.1 h₁.2 h₂.1 h₂.2 hk

/-! ## A descending `find?` returns the last satisfying element -/

/-- In a `Pairwise R` list, the first hit of `find?` on the reversed list is
`R`-above every satisfying element. -/
theorem find?_reverse_le {α : Type _} {R : α → α → Prop} {p : α → Bool} :
    ∀ {l : List α} {x : α}, l.Pairwise R → l.reverse.find? p = some x →
      ∀ y ∈ l, p y = true → y = x ∨ R y x := by
  intro l
  induction l with
  | nil => intro x _ hfind; simp at hfind
  | cons a t ih =>
    intro x hpw hfind y hy hpy
    rw [List.pairwise_cons] at hpw
    rw [List.reverse_cons, List.find?_append] at hfind
    cases hrev : t.reverse.find? p with
    | some x' =>
      rw [hrev] at hfind
      simp only [Option.or, Option.some.injEq] at hfind
      subst hfind
      rcases List.mem_cons.mp hy with rfl | hyt
      · exact Or.inr (hpw.1 _
          (List.mem_reverse.mp (List.mem_of_find?_eq_some hrev)))
      · exact ih hpw.2 hrev y hyt hpy
    | none =>
      rw [hrev] at hfind
      simp only [Option.or, List.find?] at hfind
      cases hpa : p a with
      | false => rw [hpa] at hfind; simp at hfind
      | true =>
        rw [hpa] at hfind
        simp only [Option.some.injEq] at hfind
        subst hfind
        rcases List.mem_cons.mp hy with rfl | hyt
        · exact Or.inl rfl
        · exact absurd hpy
            (List.find?_eq_none.mp hrev y (List.mem_reverse.mpr hyt))

/-! ## Claim C10: totality of the covering scan -/

/-- C10. For every index and every query network whose prefix length is at
least 8 (IPv4) or 16 (IPv6), the computed scan range has `lower ≤ upper` and
`get_longest_match_prefix` / `get_supernet_prefixes` return normally; for
every shorter query prefix the lower bound strictly exceeds the upper bound
and the underlying `BTreeMap::range` call panics (modelled as the outer
`none`), so the operations are total only under that precondition. -/
theorem c10_scan_range_bounds (I : AwsIpRanges) (v : IpNetwork) :
    (AwsIpRanges.minPlen v ≤ v.plen →
      IpNetwork.le (AwsIpRanges.lowerBound v) v.networkForm ∧
        I.getLongestMatch v ≠ none ∧ I.getSupernets v ≠ none) ∧
    (v.plen < AwsIpRanges.minPlen v →
      ¬ IpNetwork.le (AwsIpRanges.lowerBound v) v.networkForm ∧
        I.getLongestMatch v = none ∧ I.getSupernets v = none) := by
  have key : IpNetwork.le (AwsIpRanges.lowerBound v) v.networkForm →
      I.getLongestMatch v ≠ none ∧ I.getSupernets v ≠ none := by
    intro hle
    constructor <;>
      simp [AwsIpRanges.getLongestMatch, AwsIpRanges.getSupernets, btreeRange,
        hle]
  have key2 : ¬ IpNetwork.le (AwsIpRanges.lowerBound v) v.networkForm →
      I.getLongestMatch v = none ∧ I.getSupernets v = none := by
    intro hnle
    constructor <;>
      simp [AwsIpRanges.getLongestMatch, AwsIpRanges.getSupernets, btreeRange,
        hnle]
  cases v with
  | V4 a l =>
    constructor
    · intro h
      simp only [AwsIpRanges.minPlen, IpNetwork.plen] at h
      have hle : IpNetwork.le (AwsIpRanges.lowerBound (.V4 a l))
          (IpNetwork.networkForm (.V4 a l)) := by
        have hmono : maskDown a (32 - 8) ≤ maskDown a (32 - l) :=
          maskDown_mono_h a (by omega)
        have hmono24 : maskDown a 24 ≤ maskDown a (32 - l) := hmono
        have hde : maskDown a (32 - 8) = maskDown a 24 := rfl
        simp only [AwsIpRanges.lowerBound, IpNetwork.networkForm,
          IpNetwork.le, IpNetwork.famIdx, IpNetwork.addr, IpNetwork.plen,
          Nat.lt_irrefl, true_and, false_or]
        omega
      exact ⟨hle, key hle⟩
    · intro h
      simp only [AwsIpRanges.minPlen, IpNetwork.plen] at h
      have hnle : ¬ IpNetwork.le (AwsIpRanges.lowerBound (.V4 a l))
          (IpNetwork.networkForm (.V4 a l)) := by
        have hmono : maskDown a (32 - l) ≤ maskDown a (32 - 8) :=
          maskDown_mono_h a (by omega)
        have hmono24 : maskDown a (32 - l) ≤ maskDown a 24 := hmono
        have hde : maskDown a (32 - 8) = maskDown a 24 := rfl
        simp only [AwsIpRanges.lowerBound, IpNetwork.networkForm,
          IpNetwork.le, IpNetwork.famIdx, IpNetwork.addr, IpNetwork.plen,
          Nat.lt_irrefl, true_and, false_or]
        omega
      exact ⟨hnle, key2 hnle⟩
  | V6 a l =>
    constructor
    · intro h
      simp only [AwsIpRanges.minPlen, IpNetwork.plen] at h
      have hle : IpNetwork.le (AwsIpRanges.lowerBound (.V6 a l))
          (IpNetwork.networkForm (.V6 a l)) := by
        have hmono : maskDown a (128 - 16) ≤ maskDown a (128 - l) :=
          maskDown_mono_h a (by omega)
        have hmono112 : maskDown a 112 ≤ maskDown a (128 - l) := hmono
        have hde : maskDown a (128 - 16) = maskDown a 112 := rfl
        simp only [AwsIpRanges.lowerBound, IpNetwork.networkForm,
          IpNetwork.le, IpNetwork.famIdx, IpNetwork.addr, IpNetwork.plen,
          Nat.lt_irrefl, true_and, false_or]
        omega
      exact ⟨hle, key hle⟩
    · intro h
      simp only [AwsIpRanges.minPlen, IpNetwork.plen] at h
      have hnle : ¬ IpNetwork.le (AwsIpRanges.lowerBound (.V6 a l))
          (IpNetwork.networkForm (.V6 a l)) := by
        have hmono : maskDown a (128 - l) ≤ maskDown a (128 - 16) :=
          maskDown_mono_h a (by omega)
        have hmono112 : maskDown a (128 - l) ≤ maskDown a 112 := hmono
        have hde : maskDown a (128 - 16) = maskDown a 112 := rfl
        simp only [AwsIpRanges.lowerBound, IpNetwork.networkForm,
          IpNetwork.le, IpNetwork.famIdx, IpNetwork.addr, IpNetwork.plen,
          Nat.lt_irrefl, true_and, false_or]
        omega
      exact ⟨hnle, key2 hnle⟩

/-- Witness for C10 at the example index: the `/32` query is in bounds and
served; the `/4` query (`10.0.0.0/4`) trips the panic branch. -/
theorem c10_scan_range_bounds_witness :
    (AwsIpRanges.minPlen exQ ≤ exQ.plen ∧
      exIndex.getLongestMatch exQ ≠ none) ∧
    ((IpNetwork.V4 167772160 4).plen <
        AwsIpRanges.minPlen (IpNetwork.V4 167772160 4) ∧
      exIndex.getLongestMatch (IpNetwork.V4 167772160 4) = none) :=
  ⟨⟨by decide,
    ((c10_scan_range_bounds exIndex exQ).1 (by decide)).2.1⟩,
   ⟨by decide,
    ((c10_scan_range_bounds exIndex (IpNetwork.V4 167772160 4)).2
      (by decide)).2.1⟩⟩

/-! ## Claim C2: longest-match completeness -/

/-- C2. For every index and query network, if `get_supernet_prefixes` returns
a (necessarily non-empty) set of covering records, then
`get_longest_match_prefix` returns some record. -/
theorem c2_longest_match_complete (I : AwsIpRanges) (v : IpNetwork)
    (rs : List AwsIpPrefix) (h : I.getSupernets v = some (some rs)) :
    ∃ r, I.getLongestMatch v = some (some r) := by
  unfold AwsIpRanges.getSupernets at h
  unfold AwsIpRanges.getLongestMatch
  cases hb : btreeRange I.prefixes (AwsIpRanges.lowerBound v) v.networkForm with
  | none => rw [hb] at h; simp at h
  | some entries =>
    rw [hb] at h
    simp only [Option.map_some', Option.some.injEq] at h
    have hne : (entries.filter fun kv => kv.2.net.isSupernetOf v) ≠ [] := by
      intro hnil
      rw [hnil] at h
      simp at h
    obtain ⟨kv, hkv⟩ := List.exists_mem_of_ne_nil _ hne
    have hkv' := List.mem_filter.mp hkv
    have hsome : (entries.reverse.find? fun kv =>
        kv.2.net.isSupernetOf v).isSome = true := by
      rw [List.find?_isSome]
      exact ⟨kv, List.mem_reverse.mpr hkv'.1, hkv'.2⟩
    obtain ⟨r, hr⟩ := Option.isSome_iff_exists.mp hsome
    exact ⟨r.2, by simp [Option.map_some', hr]⟩

/-- Witness for C2 at the example index and the `10.0.0.1/32` query. -/
theorem c2_longest_match_complete_witness :
    exIndex.getSupernets exQ = some (some [exRec8, exRec16]) ∧
      ∃ r, exIndex.getLongestMatch exQ = some (some r) :=
  ⟨by decide, c2_longest_match_complete exIndex exQ [exRec8, exRec16]
    (by decide)⟩

/-! ## Claim C1: longest-match soundness -/


/-- C1 fails as stated over every index: on the index built by `from_json`
from a manifest listing `10.0.0.0/8` and the non-canonical `10.0.0.1/7`, the
longest-match query for `10.0.0.1/32` returns the `/7` record, while the
covering set contains the `/8` record with a strictly longer prefix length
(the non-canonical key sorts above every `10.0.0.x` key of longer prefix). -/
theorem c1_longest_match_sound_cex :
    fromJson exShadowJson = .ok c1Index ∧
      c1Index.getLongestMatch (.V4 167772161 32) = some (some c1Rec7) ∧
      c1Index.getSupernets (.V4 167772161 32) =
        some (some [exRec8, c1Rec7]) ∧
      c1Rec7.net.plen < exRec8.net.plen := by
  refine ⟨by decide, by decide, by decide, by decide⟩

/-- C1 (amended): for every index whose prefix map is well-formed — keys
strictly ascending in the map order, each key equal to its record's CIDR and
canonical, as holds for indexes built from manifests with canonical CIDRs —
if `get_longest_match_prefix` returns a record R, then R's CIDR is a supernet
of the query and every record of `get_supernet_prefixes` has prefix length at
most R's. -/
theorem c1_longest_match_sound (I : AwsIpRanges) (v : IpNetwork)
    (r : AwsIpPrefix) (hwf : mapWellFormed I.prefixes)
    (h : I.getLongestMatch v = some (some r)) :
    r.net.isSupernetOf v = true ∧
      ∀ rs, I.getSupernets v = some (some rs) →
        ∀ s ∈ rs, s.net.plen ≤ r.net.plen := by
  unfold AwsIpRanges.getLongestMatch at h
  cases hb : btreeRange I.prefixes (AwsIpRanges.lowerBound v) v.networkForm with
  | none => rw [hb] at h; simp at h
  | some entries =>
    rw [hb] at h
    simp only [Option.map_some', Option.some.injEq] at h
    cases hf : entries.reverse.find? fun kv => kv.2.net.isSupernetOf v with
    | none => rw [hf] at h; simp at h
    | some kvR =>
      rw [hf] at h
      simp only [Option.map_some', Option.some.injEq] at h
      subst h
      have hsub : entries ⊆ I.prefixes := by
        unfold btreeRange at hb
        by_cases hc : IpNetwork.le (AwsIpRanges.lowerBound v) v.networkForm
        · rw [if_pos hc] at hb
          cases hb
          exact (List.filter_sublist _).subset
        · rw [if_neg hc] at hb; cases hb
      have hpw : entries.Pairwise fun a b => IpNetwork.lt a.1 b.1 := by
        unfold btreeRange at hb
        by_cases hc : IpNetwork.le (AwsIpRanges.lowerBound v) v.networkForm
        · rw [if_pos hc] at hb
          cases hb
          exact hwf.1.sublist (List.filter_sublist _)
        · rw [if_neg hc] at hb; cases hb
      have hpR : kvR.2.net.isSupernetOf v = true :=
        @List.find?_some _ (fun kv => kv.2.net.isSupernetOf v) kvR
          entries.reverse hf
      have hRmem : kvR ∈ entries :=
        List.mem_reverse.mp (List.mem_of_find?_eq_some hf)
      have wR := hwf.2 kvR (hsub hRmem)
      refine ⟨hpR, ?_⟩
      intro rs hrs s hs
      unfold AwsIpRanges.getSupernets at hrs
      rw [hb] at hrs
      simp only [Option.map_some', Option.some.injEq] at hrs
      by_cases he :
          ((entries.filter fun kv => kv.2.net.isSupernetOf v).map (·.2)).isEmpty
      · rw [if_pos he] at hrs; cases hrs
      · rw [if_neg he] at hrs
        cases hrs
        obtain ⟨kv, hkvmem, hkv2⟩ := List.mem_map.mp hs
        have hkvf := List.mem_filter.mp hkvmem
        have wkv := hwf.2 kv (hsub hkvf.1)
        have hcmp := find?_reverse_le hpw hf kv hkvf.1 hkvf.2
        have hk : kv.2.net = kvR.2.net ∨ IpNetwork.lt kv.2.net kvR.2.net := by
          rcases hcmp with rfl | hlt
          · exact Or.inl rfl
          · rw [wkv.1, wR.1] at hlt
            exact Or.inr hlt
        have hcankv : kv.2.net.Canonical := by rw [← wkv.1]; exact wkv.2
        have hcanR : kvR.2.net.Canonical := by rw [← wR.1]; exact wR.2
        rw [← hkv2]
        exact plen_le_of_supernets hcankv hcanR hkvf.2 hpR hk

/-- Witness for C1 (amended) at the well-formed example index: the longest
match for `10.0.0.1/32` is the `/16` record, it is a supernet of the query,
and the `/8` covering record's prefix length is at most 16. -/
theorem c1_longest_match_sound_witness :
    mapWellFormed exIndex.prefixes ∧
      exIndex.getLongestMatch exQ = some (some exRec16) ∧
      exRec16.net.isSupernetOf exQ = true ∧
      exRec8.net.plen ≤ exRec16.net.plen := by
  have h := c1_longest_match_sound exIndex exQ exRec16 (by decide) (by decide)
  exact ⟨by decide, by decide, h.1,
    h.2 [exRec8, exRec16] (by decide) exRec8 (by decide)⟩

/-! ## Claim C3: filter monotonicity -/

/-- The boolean conjunction `include_prefix` evaluates to the claim's
predicate-by-predicate characterization. -/
theorem includeRecord_iff (f : Filter) (r : AwsIpPrefix) :
    f.includeRecord r = true ↔
      ((f.prefix_type = some PrefixType.IPv4 → r.net.is_ipv4 = true) ∧
        (f.prefix_type = some PrefixType.IPv6 → r.net.is_ipv6 = true) ∧
        (∀ rs, f.regions = some rs → r.region ∈ rs) ∧
        (∀ gs, f.network_border_groups = some gs →
          r.network_border_group ∈ gs) ∧
        (∀ ss, f.services = some ss → ∃ s ∈ ss, s ∈ r.services)) := by
  unfold Filter.includeRecord Filter.match_prefix_type Filter.match_regions
    Filter.match_network_border_groups Filter.match_services
  cases hpt : f.prefix_type with
  | none =>
    cases hr : f.regions <;> cases hg : f.network_border_groups <;>
      cases hs : f.services <;>
        simp [List.contains, List.elem_iff, List.any_eq_true, and_assoc]
  | some pt =>
    cases pt <;> cases hr : f.regions <;> cases hg : f.network_border_groups <;>
      cases hs : f.services <;>
        simp [List.contains, List.elem_iff, List.any_eq_true, and_assoc,
          PrefixType.is_ipv4, PrefixType.is_ipv6]

/-- C3. For every index and filter, the filtered prefix map is a subset of
the parent's, and an entry is retained iff its record satisfies every
configured predicate of the filter: family matches when the family is set,
region handle is among the filter's regions when set, network-border-group
handle likewise when set, and the record's service set intersects the
filter's services when set. -/
theorem c3_filter_monotone (I : AwsIpRanges) (f : Filter) :
    (I.filter f).prefixes ⊆ I.prefixes ∧
      ∀ kv, kv ∈ (I.filter f).prefixes ↔
        (kv ∈ I.prefixes ∧
          (f.prefix_type = some PrefixType.IPv4 → kv.2.net.is_ipv4 = true) ∧
          (f.prefix_type = some PrefixType.IPv6 → kv.2.net.is_ipv6 = true) ∧
          (∀ rs, f.regions = some rs → kv.2.region ∈ rs) ∧
          (∀ gs, f.network_border_groups = some gs →
            kv.2.network_border_group ∈ gs) ∧
          (∀ ss, f.services = some ss → ∃ s ∈ ss, s ∈ kv.2.services)) := by
  have hpre : (I.filter f).prefixes =
      I.prefixes.filter fun kv => f.includeRecord kv.2 := rfl
  constructor
  · rw [hpre]
    exact (List.filter_sublist _).subset
  · intro kv
    rw [hpre, List.mem_filter, includeRecord_iff]

/-! ## Claim C9: derived metadata preservation -/

/-- C9. For every index, filter and query list, the `filter`-derived index
and the `search`-derived index both carry the parent's `sync_token` and
`create_date` unchanged. -/
theorem c9_metadata_preserved (I : AwsIpRanges) (f : Filter)
    (qs : List IpNetwork) (res : SearchResults)
    (hs : I.search qs = some res) :
    (I.filter f).sync_token = I.sync_token ∧
      (I.filter f).create_date = I.create_date ∧
      res.aws_ip_ranges.sync_token = I.sync_token ∧
      res.aws_ip_ranges.create_date = I.create_date := by
  unfold AwsIpRanges.search at hs
  cases ht : searchLoop I qs [] [] [] with
  | none => rw [ht] at hs; cases hs
  | some t =>
    rw [ht] at hs
    simp only [Option.map_some', Option.some.injEq] at hs
    rw [← hs]
    exact ⟨rfl, rfl, rfl, rfl⟩


/-- Witness for C9 at the example index. -/
theorem c9_metadata_preserved_witness :
    exIndex.search [exQ, exNF] = some exSearchRes ∧
      (exIndex.filter ⟨none, none, none, none⟩).sync_token =
        exIndex.sync_token ∧
      exSearchRes.aws_ip_ranges.sync_token = exIndex.sync_token :=
  ⟨by decide,
    (c9_metadata_preserved exIndex ⟨none, none, none, none⟩ [exQ, exNF]
      exSearchRes (by decide)).1,
    (c9_metadata_preserved exIndex ⟨none, none, none, none⟩ [exQ, exNF]
      exSearchRes (by decide)).2.2.1⟩

/-! ## Claim C7: filter-builder attribute validation -/

/-- A `FilterBuilder` setter errors iff some provided name fails to resolve,
and the error message is the kind-specific prefix followed by an unresolved
name. -/
theorem resolveAll_spec (get : String → Option String) (errPre : String) :
    ∀ names : List String,
      ((∃ e, resolveAll get errPre names = .error e) ↔
        ∃ n ∈ names, get n = none) ∧
      (∀ e, resolveAll get errPre names = .error e →
        ∃ n ∈ names, get n = none ∧ e = errPre ++ n) := by
  intro names
  induction names with
  | nil =>
    constructor
    · constructor
      · rintro ⟨e, he⟩; simp [resolveAll] at he
      · rintro ⟨n, hn, _⟩; simp at hn
    · intro e he; simp [resolveAll] at he
  | cons n rest ih =>
    constructor
    · constructor
      · rintro ⟨e, he⟩
        unfold resolveAll at he
        cases hg : get n with
        | none => exact ⟨n, List.mem_cons_self n rest, hg⟩
        | some hdl =>
          rw [hg] at he
          cases hres : resolveAll get errPre rest with
          | ok hs => rw [hres] at he; simp [Except.map] at he
          | error e' =>
            obtain ⟨n', hn', hnone⟩ := ih.1.mp ⟨e', hres⟩
            exact ⟨n', List.mem_cons_of_mem n hn', hnone⟩
      · rintro ⟨n', hn', hnone⟩
        unfold resolveAll
        cases hg : get n with
        | none => exact ⟨errPre ++ n, rfl⟩
        | some hdl =>
          rcases List.mem_cons.mp hn' with rfl | hmem
          · rw [hg] at hnone; cases hnone
          · obtain ⟨e, he⟩ := ih.1.mpr ⟨n', hmem, hnone⟩
            exact ⟨e, by rw [he]; rfl⟩
    · intro e he
      unfold resolveAll at he
      cases hg : get n with
      | none =>
        rw [hg] at he
        simp only [Except.error.injEq] at he
        exact ⟨n, List.mem_cons_self n rest, hg, he.symm⟩
      | some hdl =>
        rw [hg] at he
        cases hres : resolveAll get errPre rest with
        | ok hs => rw [hres] at he; simp [Except.map] at he
        | error e' =>
          rw [hres] at he
          simp only [Except.map, Except.error.injEq] at he
          obtain ⟨n', hn', hnone, herr⟩ := ih.2 e' hres
          exact ⟨n', List.mem_cons_of_mem n hn', hnone, by rw [← he, herr]⟩

/-- C7. For every parent index, each filter-builder setter (`regions`,
`network_border_groups`, `services`) fails iff some provided name does not
resolve to an interned handle of the corresponding kind, and the error it
fails with identifies the attribute kind (by its kind-specific message) and
an unresolved name. -/
theorem c7_unknown_attribute (I : AwsIpRanges) (names : List String) :
    ((∃ e, FilterBuilder.regions I names = .error e) ↔
        ∃ n ∈ names, I.get_region n = none) ∧
      (∀ e, FilterBuilder.regions I names = .error e →
        ∃ n ∈ names, I.get_region n = none ∧ e = "Invalid region: " ++ n) ∧
      ((∃ e, FilterBuilder.network_border_groups I names = .error e) ↔
        ∃ n ∈ names, I.get_network_border_group n = none) ∧
      (∀ e, FilterBuilder.network_border_groups I names = .error e →
        ∃ n ∈ names, I.get_network_border_group n = none ∧
          e = "Invalid network border group: " ++ n) ∧
      ((∃ e, FilterBuilder.services I names = .error e) ↔
        ∃ n ∈ names, I.get_service n = none) ∧
      (∀ e, FilterBuilder.services I names = .error e →
        ∃ n ∈ names, I.get_service n = none ∧ e = "Invalid service: " ++ n) :=
  ⟨(resolveAll_spec I.get_region "Invalid region: " names).1,
    (resolveAll_spec I.get_region "Invalid region: " names).2,
    (resolveAll_spec I.get_network_border_group
      "Invalid network border group: " names).1,
    (resolveAll_spec I.get_network_border_group
      "Invalid network border group: " names).2,
    (resolveAll_spec I.get_service "Invalid service: " names).1,
    (resolveAll_spec I.get_service "Invalid service: " names).2⟩

/-- Witness for C7: `services(["nope"])` on the example index fails with
`Invalid service: nope`; the scenario-S6 error and name extraction follow by
applying the claim theorem. -/
theorem c7_unknown_attribute_witness :
    FilterBuilder.services exIndex ["nope"] = .error "Invalid service: nope" ∧
      ∃ n ∈ ["nope"], exIndex.get_service n = none ∧
        "Invalid service: nope" = "Invalid service: " ++ n :=
  ⟨rfl,
    (c7_unknown_attribute exIndex ["nope"]).2.2.2.2.2 "Invalid service: nope"
      rfl⟩

/-! ## Claim C4: search partition -/

/-- Key membership after a `prefix_matches` insert. -/
theorem mem_mapKeys_matchesInsert (m : List (IpNetwork × List AwsIpPrefix))
    (k : IpNetwork) (v : List AwsIpPrefix) (q : IpNetwork) :
    q ∈ mapKeys (matchesInsert m k v) ↔ q ∈ mapKeys m ∨ q = k := by
  unfold matchesInsert mapKeys
  by_cases hc : m.any fun kv => decide (kv.1 = k)
  · rw [if_pos hc]
    constructor
    · intro hq
      obtain ⟨kv, hkv, himg⟩ := List.mem_map.mp hq
      obtain ⟨kv', hkv', himg'⟩ := List.mem_map.mp hkv
      by_cases he : kv'.1 = k
      · rw [if_pos he] at himg'
        right
        rw [← himg, ← himg']
      · rw [if_neg he] at himg'
        left
        exact List.mem_map.mpr ⟨kv', hkv', by rw [← himg, ← himg']⟩
    · intro hq
      rcases hq with hq | rfl
      · obtain ⟨kv, hkv, himg⟩ := List.mem_map.mp hq
        refine List.mem_map.mpr ⟨if kv.1 = k then (k, v) else kv,
          List.mem_map.mpr ⟨kv, hkv, rfl⟩, ?_⟩
        by_cases he : kv.1 = k
        · rw [if_pos he]; rw [← himg, he]
        · rw [if_neg he]; exact himg
      · obtain ⟨kv, hkv, hke⟩ := List.any_eq_true.mp hc
        refine List.mem_map.mpr ⟨(q, v), List.mem_map.mpr ⟨kv, hkv, ?_⟩, rfl⟩
        rw [if_pos (of_decide_eq_true hke)]
  · rw [if_neg hc]
    simp [List.mem_map, List.mem_append]

/-- Membership after a `prefixes_not_found` insert. -/
theorem mem_setInsertNet (s : List IpNetwork) (k q : IpNetwork) :
    q ∈ setInsertNet s k ↔ q ∈ s ∨ q = k := by
  unfold setInsertNet
  by_cases hk : k ∈ s
  · rw [if_pos hk]
    constructor
    · exact Or.inl
    · rintro (h | rfl)
      · exact h
      · exact hk
  · rw [if_neg hk]
    simp [List.mem_append]

/-- Loop invariant of `search`: after a successful run, a query network is
among the match keys (resp. the not-found set) iff it was there initially or
it occurs in the processed queries with a non-empty (resp. empty) covering
set; and no processed query panics. -/
theorem searchLoop_mem (I : AwsIpRanges) :
    ∀ (qs : List IpNetwork) (m : List (IpNetwork × List AwsIpPrefix))
      (nf : List IpNetwork) (acc : List AwsIpPrefix)
      (m' : List (IpNetwork × List AwsIpPrefix)) (nf' : List IpNetwork)
      (acc' : List AwsIpPrefix),
      searchLoop I qs m nf acc = some (m', nf', acc') →
      ∀ q : IpNetwork,
        (q ∈ mapKeys m' ↔ q ∈ mapKeys m ∨
          (q ∈ qs ∧ ∃ s, I.getSupernets q = some (some s))) ∧
        (q ∈ nf' ↔ q ∈ nf ∨ (q ∈ qs ∧ I.getSupernets q = some none)) ∧
        (q ∈ qs → I.getSupernets q ≠ none) := by
  intro qs
  induction qs with
  | nil =>
    intro m nf acc m' nf' acc' h q
    unfold searchLoop at h
    simp only [Option.some.injEq, Prod.mk.injEq] at h
    obtain ⟨rfl, rfl, rfl⟩ := h
    simp
  | cons q0 rest ih =>
    intro m nf acc m' nf' acc' h q
    unfold searchLoop at h
    cases hg : I.getSupernets q0 with
    | none => rw [hg] at h; cases h
    | some og =>
      rw [hg] at h
      cases og with
      | none =>
        have spec := ih m (setInsertNet nf q0) acc m' nf' acc' h q
        refine ⟨?_, ?_, ?_⟩
        · rw [spec.1]
          constructor
          · rintro (hm | ⟨hq, hs⟩)
            · exact Or.inl hm
            · exact Or.inr ⟨List.mem_cons_of_mem _ hq, hs⟩
          · rintro (hm | ⟨hq, hs⟩)
            · exact Or.inl hm
            · rcases List.mem_cons.mp hq with rfl | hq'
              · obtain ⟨s, hs'⟩ := hs
                rw [hg] at hs'
                simp at hs'
              · exact Or.inr ⟨hq', hs⟩
        · rw [spec.2.1, mem_setInsertNet]
          constructor
          · rintro ((hnf | rfl) | ⟨hq, hs⟩)
            · exact Or.inl hnf
            · exact Or.inr ⟨List.mem_cons_self _ _, hg⟩
            · exact Or.inr ⟨List.mem_cons_of_mem _ hq, hs⟩
          · rintro (hnf | ⟨hq, hs⟩)
            · exact Or.inl (Or.inl hnf)
            · rcases List.mem_cons.mp hq with rfl | hq'
              · exact Or.inl (Or.inr rfl)
              · exact Or.inr ⟨hq', hs⟩
        · intro hq
          rcases List.mem_cons.mp hq with rfl | hq'
          · rw [hg]; exact Option.some_ne_none _
          · exact spec.2.2 hq'
      | some rs =>
        have spec := ih (matchesInsert m q0 rs) nf (rs.foldl setInsertRec acc)
          m' nf' acc' h q
        refine ⟨?_, ?_, ?_⟩
        · rw [spec.1, mem_mapKeys_matchesInsert]
          constructor
          · rintro ((hm | rfl) | ⟨hq, hs⟩)
            · exact Or.inl hm
            · exact Or.inr ⟨List.mem_cons_self _ _, rs, hg⟩
            · exact Or.inr ⟨List.mem_cons_of_mem _ hq, hs⟩
          · rintro (hm | ⟨hq, hs⟩)
            · exact Or.inl (Or.inl hm)
            · rcases List.mem_cons.mp hq with rfl | hq'
              · exact Or.inl (Or.inr rfl)
              · exact Or.inr ⟨hq', hs⟩
        · rw [spec.2.1]
          constructor
          · rintro (hnf | ⟨hq, hs⟩)
            · exact Or.inl hnf
            · exact Or.inr ⟨List.mem_cons_of_mem _ hq, hs⟩
          · rintro (hnf | ⟨hq, hs⟩)
            · exact Or.inl hnf
            · rcases List.mem_cons.mp hq with rfl | hq'
              · rw [hg] at hs
                simp at hs
              · exact Or.inr ⟨hq', hs⟩
        · intro hq
          rcases List.mem_cons.mp hq with rfl | hq'
          · rw [hg]; exact Option.some_ne_none _
          · exact spec.2.2 hq'

/-- C4. For every index and finite query list, in the result of `search` the
match keys together with the not-found set equal the set of query networks,
the two are disjoint, and a query is a match key iff it has a non-empty
covering set while it is not-found iff its covering set is empty. -/
theorem c4_search_partition (I : AwsIpRanges) (qs : List IpNetwork)
    (res : SearchResults) (h : I.search qs = some res) (q : IpNetwork) :
    ((q ∈ mapKeys res.prefix_matches ∨ q ∈ res.prefixes_not_found) ↔
        q ∈ qs) ∧
      ¬ (q ∈ mapKeys res.prefix_matches ∧ q ∈ res.prefixes_not_found) ∧
      (q ∈ mapKeys res.prefix_matches ↔
        q ∈ qs ∧ ∃ s, I.getSupernets q = some (some s)) ∧
      (q ∈ res.prefixes_not_found ↔
        q ∈ qs ∧ I.getSupernets q = some none) := by
  unfold AwsIpRanges.search at h
  cases ht : searchLoop I qs [] [] [] with
  | none => rw [ht] at h; cases h
  | some t =>
    rw [ht] at h
    simp only [Option.map_some', Option.some.injEq] at h
    obtain ⟨m', nf', acc'⟩ := t
    have spec := searchLoop_mem I qs [] [] [] m' nf' acc' ht q
    have hkeys : q ∈ mapKeys m' ↔
        q ∈ qs ∧ ∃ s, I.getSupernets q = some (some s) := by
      rw [spec.1]
      simp [mapKeys]
    have hnf : q ∈ nf' ↔ q ∈ qs ∧ I.getSupernets q = some none := by
      rw [spec.2.1]
      simp
    have hres1 : res.prefix_matches = m' := by rw [← h]
    have hres2 : res.prefixes_not_found = nf' := by rw [← h]
    rw [hres1, hres2]
    refine ⟨?_, ?_, hkeys, hnf⟩
    · constructor
      · rintro (hk | hn)
        · exact (hkeys.mp hk).1
        · exact (hnf.mp hn).1
      · intro hq
        cases hs : I.getSupernets q with
        | none => exact absurd hs (spec.2.2 hq)
        | some og =>
          cases og with
          | none => exact Or.inr (hnf.mpr ⟨hq, hs⟩)
          | some s => exact Or.inl (hkeys.mpr ⟨hq, s, hs⟩)
    · rintro ⟨hk, hn⟩
      obtain ⟨-, s, hs⟩ := hkeys.mp hk
      obtain ⟨-, hs'⟩ := hnf.mp hn
      rw [hs] at hs'
      simp at hs'

/-- Witness for C4 at the example index and queries
`[10.0.0.1/32, 192.168.0.0/24]`: the first query is matched, the second is
not found. -/
theorem c4_search_partition_witness :
    exIndex.search [exQ, exNF] = some exSearchRes ∧
      ((exQ ∈ mapKeys exSearchRes.prefix_matches ∨
          exQ ∈ exSearchRes.prefixes_not_found) ↔ exQ ∈ [exQ, exNF]) ∧
      (exNF ∈ exSearchRes.prefixes_not_found ↔
        exNF ∈ [exQ, exNF] ∧ exIndex.getSupernets exNF = some none) :=
  ⟨by decide,
    (c4_search_partition exIndex [exQ, exNF] exSearchRes (by decide) exQ).1,
    (c4_search_partition exIndex [exQ, exNF] exSearchRes
      (by decide) exNF).2.2.2⟩

/-! ## Claim C5: key equals record, canonical keys -/

/-- Membership in a sorted-position insert. -/
theorem mem_mapInsertSorted (m : PrefixMap) (e kv : IpNetwork × AwsIpPrefix) :
    kv ∈ mapInsertSorted m e ↔ kv ∈ m ∨ kv = e := by
  induction m with
  | nil => simp [mapInsertSorted, or_comm]
  | cons a t ih =>
    unfold mapInsertSorted
    by_cases hlt : IpNetwork.lt e.1 a.1
    · rw [if_pos hlt]
      simp only [List.mem_cons]
      tauto
    · rw [if_neg hlt]
      simp only [List.mem_cons, ih]
      tauto

/-- `rowStep` preserves "every key equals its record's CIDR". -/
theorem rowStep_key_eq (m : PrefixMap) (r : Row) (m' : PrefixMap)
    (h : rowStep m r = some m') (hm : ∀ kv ∈ m, kv.1 = kv.2.net) :
    ∀ kv ∈ m', kv.1 = kv.2.net := by
  unfold rowStep at h
  cases hf : m.find? fun kv => decide (kv.1 = r.net) with
  | some kv0 =>
    rw [hf] at h
    dsimp only at h
    by_cases hcnd : kv0.2.region = r.region ∧
        kv0.2.network_border_group = r.network_border_group
    · rw [if_pos hcnd] at h
      cases h
      intro kv hkv
      unfold mapModify at hkv
      obtain ⟨kv1, hkv1, himg⟩ := List.mem_map.mp hkv
      by_cases he : kv1.1 = r.net
      · rw [if_pos he] at himg
        rw [← himg]
        exact hm kv1 hkv1
      · rw [if_neg he] at himg
        rw [← himg]
        exact hm kv1 hkv1
    · rw [if_neg hcnd] at h; cases h
  | none =>
    rw [hf] at h
    dsimp only at h
    cases h
    intro kv hkv
    rcases (mem_mapInsertSorted _ _ _).mp hkv with hkv' | rfl
    · exact hm kv hkv'
    · rfl

/-- `rowStep` preserves key canonicality when the incoming row's CIDR is
canonical. -/
theorem rowStep_canonical (m : PrefixMap) (r : Row) (m' : PrefixMap)
    (h : rowStep m r = some m') (hm : ∀ kv ∈ m, kv.1.Canonical)
    (hr : r.net.Canonical) : ∀ kv ∈ m', kv.1.Canonical := by
  unfold rowStep at h
  cases hf : m.find? fun kv => decide (kv.1 = r.net) with
  | some kv0 =>
    rw [hf] at h
    dsimp only at h
    by_cases hcnd : kv0.2.region = r.region ∧
        kv0.2.network_border_group = r.network_border_group
    · rw [if_pos hcnd] at h
      cases h
      intro kv hkv
      unfold mapModify at hkv
      obtain ⟨kv1, hkv1, himg⟩ := List.mem_map.mp hkv
      by_cases he : kv1.1 = r.net
      · rw [if_pos he] at himg
        rw [← himg]
        exact hm kv1 hkv1
      · rw [if_neg he] at himg
        rw [← himg]
        exact hm kv1 hkv1
    · rw [if_neg hcnd] at h; cases h
  | none =>
    rw [hf] at h
    dsimp only at h
    cases h
    intro kv hkv
    rcases (mem_mapInsertSorted _ _ _).mp hkv with hkv' | rfl
    · exact hm kv hkv'
    · exact hr

/-- Fold-level preservation of "key equals record CIDR". -/
theorem foldRows_key_eq :
    ∀ (rows : List Row) (m m' : PrefixMap),
      foldRows m rows = some m' → (∀ kv ∈ m, kv.1 = kv.2.net) →
      ∀ kv ∈ m', kv.1 = kv.2.net := by
  intro rows
  induction rows with
  | nil =>
    intro m m' h hm
    unfold foldRows at h
    cases h
    exact hm
  | cons r rest ih =>
    intro m m' h hm
    unfold foldRows at h
    cases hs : rowStep m r with
    | none => rw [hs] at h; cases h
    | some m2 =>
      rw [hs] at h
      exact ih m2 m' h (rowStep_key_eq m r m2 hs hm)

/-- Fold-level preservation of key canonicality. -/
theorem foldRows_canonical :
    ∀ (rows : List Row) (m m' : PrefixMap),
      foldRows m rows = some m' → (∀ kv ∈ m, kv.1.Canonical) →
      (∀ row ∈ rows, row.net.Canonical) →
      ∀ kv ∈ m', kv.1.Canonical := by
  intro rows
  induction rows with
  | nil =>
    intro m m' h hm _
    unfold foldRows at h
    cases h
    exact hm
  | cons r rest ih =>
    intro m m' h hm hrows
    unfold foldRows at h
    cases hs : rowStep m r with
    | none => rw [hs] at h; cases h
    | some m2 =>
      rw [hs] at h
      exact ih m2 m' h
        (rowStep_canonical m r m2 hs hm (hrows r (List.mem_cons_self r rest)))
        fun row hrow => hrows row (List.mem_cons_of_mem r hrow)

/-- C5 (amended). For every decoded manifest accepted by `from_json`, every
key of the built index equals the stored record's CIDR; and since keys are
the manifest CIDRs taken verbatim, every key is canonical whenever every
CIDR listed in the manifest is canonical. (The construction itself performs
no canonicalization, so the unconditional canonicality in the original claim
fails: see the counterexample.) -/
theorem c5_key_eq_record (j : JsonIpRanges) (I : AwsIpRanges)
    (h : fromJson j = .ok I) :
    (∀ kv ∈ I.prefixes, kv.1 = kv.2.net) ∧
      ((∀ row ∈ j.rows, row.net.Canonical) →
        ∀ kv ∈ I.prefixes, kv.1.Canonical) := by
  unfold fromJson at h
  cases hf : foldRows [] j.rows with
  | none => rw [hf] at h; cases h
  | some m =>
    rw [hf] at h
    cases h
    exact ⟨foldRows_key_eq j.rows [] m hf (by simp),
      fun hc => foldRows_canonical j.rows [] m hf (by simp) hc⟩


/-- C5 is false as stated: `from_json` stores the manifest CIDRs verbatim, so
the row `10.0.0.1/8` yields a non-canonical key (host bits set below the
prefix length). -/
theorem c5_key_eq_record_cex :
    fromJson exNoncanonJson = .ok c5Index ∧
      (IpNetwork.V4 167772161 8, c5Rec) ∈ c5Index.prefixes ∧
      ¬ (IpNetwork.V4 167772161 8).Canonical :=
  ⟨by decide, by decide, by decide⟩


/-- Witness for C5 (amended) on the canonical two-row manifest. -/
theorem c5_key_eq_record_witness :
    fromJson exGoodJson = .ok c5GoodIndex ∧
      IpNetwork.V4 167772160 8 = c5GoodRec.net ∧
      (IpNetwork.V4 167772160 8).Canonical := by
  have h := c5_key_eq_record exGoodJson c5GoodIndex (by decide)
  exact ⟨by decide,
    h.1 (IpNetwork.V4 167772160 8, c5GoodRec) (by decide),
    h.2 (by decide) (IpNetwork.V4 167772160 8, c5GoodRec) (by decide)⟩

/-! ## Claim C6: conflicting duplicate networks abort construction -/

/-- The `from_json` fold distributes over list append, propagating a panic. -/
theorem foldRows_append (xs ys : List Row) :
    ∀ m : PrefixMap, foldRows m (xs ++ ys) =
      (foldRows m xs).bind fun m2 => foldRows m2 ys := by
  induction xs with
  | nil => intro m; rfl
  | cons r rest ih =>
    intro m
    rw [List.cons_append]
    cases hs : rowStep m r with
    | none => simp [foldRows, hs]
    | some m2 => simp [foldRows, hs, ih m2]

/-- `rowStep` preserves key-uniqueness of map entries. -/
theorem rowStep_unique (m m2 : PrefixMap) (r : Row)
    (hs : rowStep m r = some m2)
    (hu : ∀ kv ∈ m, ∀ kv' ∈ m, kv.1 = kv'.1 → kv = kv') :
    ∀ kv ∈ m2, ∀ kv' ∈ m2, kv.1 = kv'.1 → kv = kv' := by
  unfold rowStep at hs
  cases hf : m.find? fun kv => decide (kv.1 = r.net) with
  | some kv0 =>
    rw [hf] at hs
    dsimp only at hs
    by_cases hcnd : kv0.2.region = r.region ∧
        kv0.2.network_border_group = r.network_border_group
    · rw [if_pos hcnd] at hs
      cases hs
      intro kv hkv kv' hkv' hkk
      unfold mapModify at hkv hkv'
      obtain ⟨kv1, hkv1, himg⟩ := List.mem_map.mp hkv
      obtain ⟨kv1', hkv1', himg'⟩ := List.mem_map.mp hkv'
      have hk1 : kv.1 = kv1.1 := by
        by_cases he : kv1.1 = r.net
        · rw [if_pos he] at himg; rw [← himg]
        · rw [if_neg he] at himg; rw [← himg]
      have hk1' : kv'.1 = kv1'.1 := by
        by_cases he : kv1'.1 = r.net
        · rw [if_pos he] at himg'; rw [← himg']
        · rw [if_neg he] at himg'; rw [← himg']
      have : kv1 = kv1' := hu kv1 hkv1 kv1' hkv1' (by rw [← hk1, ← hk1', hkk])
      rw [← himg, ← himg', this]
    · rw [if_neg hcnd] at hs; cases hs
  | none =>
    rw [hf] at hs
    dsimp only at hs
    cases hs
    have hnone : ∀ kv ∈ m, kv.1 ≠ r.net := by
      intro kv hkv
      have := List.find?_eq_none.mp hf kv hkv
      simpa using this
    intro kv hkv kv' hkv' hkk
    rcases (mem_mapInsertSorted _ _ _).mp hkv with h1 | rfl <;>
      rcases (mem_mapInsertSorted _ _ _).mp hkv' with h2 | h2
    · exact hu kv h1 kv' h2 hkk
    · rw [h2] at hkk
      exact absurd hkk (hnone kv h1)
    · exact absurd hkk.symm (hnone kv' h2)
    · rw [h2]

/-- Fold-level preservation of key-uniqueness. -/
theorem foldRows_unique :
    ∀ (rows : List Row) (m m' : PrefixMap),
      foldRows m rows = some m' →
      (∀ kv ∈ m, ∀ kv' ∈ m, kv.1 = kv'.1 → kv = kv') →
      ∀ kv ∈ m', ∀ kv' ∈ m', kv.1 = kv'.1 → kv = kv' := by
  intro rows
  induction rows with
  | nil =>
    intro m m' h hu
    unfold foldRows at h
    cases h
    exact hu
  | cons r rest ih =>
    intro m m' h hu
    unfold foldRows at h
    cases hs : rowStep m r with
    | none => rw [hs] at h; cases h
    | some m2 =>
      rw [hs] at h
      exact ih m2 m' h (rowStep_unique m m2 r hs hu)

/-- If every `k`-keyed entry of the map carries attributes `(a, b)`, some
`k`-keyed entry exists, and the row is not a conflicting `k`-row, then a
successful `rowStep` preserves both facts. -/
theorem rowStep_preserves (m m2 : PrefixMap) (r : Row) (k : IpNetwork)
    (a b : String) (hs : rowStep m r = some m2)
    (hattrs : ∀ kv ∈ m, kv.1 = k →
      kv.2.region = a ∧ kv.2.network_border_group = b)
    (hpres : ∃ kv ∈ m, kv.1 = k)
    (hnoto : ¬ (r.net = k ∧
      (r.region ≠ a ∨ r.network_border_group ≠ b))) :
    (∀ kv ∈ m2, kv.1 = k →
      kv.2.region = a ∧ kv.2.network_border_group = b) ∧
      ∃ kv ∈ m2, kv.1 = k := by
  unfold rowStep at hs
  cases hf : m.find? fun kv => decide (kv.1 = r.net) with
  | some kv0 =>
    rw [hf] at hs
    dsimp only at hs
    by_cases hcnd : kv0.2.region = r.region ∧
        kv0.2.network_border_group = r.network_border_group
    · rw [if_pos hcnd] at hs
      cases hs
      constructor
      · intro kv hkv hkvk
        unfold mapModify at hkv
        obtain ⟨kv1, hkv1, himg⟩ := List.mem_map.mp hkv
        by_cases he : kv1.1 = r.net
        · rw [if_pos he] at himg
          have hk1 : kv1.1 = k := by rw [← himg] at hkvk; exact hkvk
          have := hattrs kv1 hkv1 hk1
          rw [← himg]
          exact this
        · rw [if_neg he] at himg
          have hk1 : kv1.1 = k := by rw [← himg] at hkvk; exact hkvk
          rw [← himg]
          exact hattrs kv1 hkv1 hk1
      · obtain ⟨kv1, hkv1, hkv1k⟩ := hpres
        unfold mapModify
        by_cases he : kv1.1 = r.net
        · exact ⟨(kv1.1, { kv1.2 with
              services := strInsert kv1.2.services r.service }),
            List.mem_map.mpr ⟨kv1, hkv1, by rw [if_pos he]⟩, hkv1k⟩
        · exact ⟨kv1, List.mem_map.mpr ⟨kv1, hkv1, by rw [if_neg he]⟩, hkv1k⟩
    · rw [if_neg hcnd] at hs; cases hs
  | none =>
    rw [hf] at hs
    dsimp only at hs
    cases hs
    constructor
    · intro kv hkv hkvk
      rcases (mem_mapInsertSorted _ _ _).mp hkv with hkv' | rfl
      · exact hattrs kv hkv' hkvk
      · have : r.region = a ∧ r.network_border_group = b := by
          by_contra hcon
          exact hnoto ⟨hkvk, not_and_or.mp hcon⟩
        exact this
    · obtain ⟨kv1, hkv1, hkv1k⟩ := hpres
      exact ⟨kv1, (mem_mapInsertSorted _ _ _).mpr (Or.inl hkv1), hkv1k⟩

/-- If some later row lists network `k` with attributes different from those
already recorded for `k`, the `from_json` fold panics. -/
theorem foldRows_conflict :
    ∀ (rows : List Row) (m : PrefixMap) (k : IpNetwork) (a b : String),
      (∀ kv ∈ m, kv.1 = k →
        kv.2.region = a ∧ kv.2.network_border_group = b) →
      (∃ kv ∈ m, kv.1 = k) →
      (∃ r ∈ rows, r.net = k ∧
        (r.region ≠ a ∨ r.network_border_group ≠ b)) →
      foldRows m rows = none := by
  intro rows
  induction rows with
  | nil =>
    rintro m k a b _ _ ⟨r, hr, -⟩
    simp at hr
  | cons r rest ih =>
    rintro m k a b hattrs hpres hoff
    by_cases hrk : r.net = k ∧ (r.region ≠ a ∨ r.network_border_group ≠ b)
    · obtain ⟨kv1, hkv1, hkv1k⟩ := hpres
      have hfs : (m.find? fun kv => decide (kv.1 = r.net)).isSome = true := by
        rw [List.find?_isSome]
        exact ⟨kv1, hkv1, by simp [hkv1k, hrk.1]⟩
      obtain ⟨kv0, hkv0⟩ := Option.isSome_iff_exists.mp hfs
      have hkv0m : kv0 ∈ m := List.mem_of_find?_eq_some hkv0
      have hkv0k : kv0.1 = r.net :=
        of_decide_eq_true
          (@List.find?_some _ (fun kv => decide (kv.1 = r.net)) kv0 m hkv0)
      have hab := hattrs kv0 hkv0m (by rw [hkv0k, hrk.1])
      have hstep : rowStep m r = none := by
        unfold rowStep
        rw [hkv0]
        dsimp only
        have hcond : ¬ (kv0.2.region = r.region ∧
            kv0.2.network_border_group = r.network_border_group) := by
          rintro ⟨hc1, hc2⟩
          rcases hrk.2 with hne | hne
          · exact hne (by rw [← hc1, hab.1])
          · exact hne (by rw [← hc2, hab.2])
        rw [if_neg hcond]
      simp [foldRows, hstep]
    · cases hs : rowStep m r with
      | none => simp [foldRows, hs]
      | some m2 =>
        have hpr := rowStep_preserves m m2 r k a b hs hattrs hpres hrk
        have hoff' : ∃ r' ∈ rest, r'.net = k ∧
            (r'.region ≠ a ∨ r'.network_border_group ≠ b) := by
          obtain ⟨r', hr', hr'k⟩ := hoff
          rcases List.mem_cons.mp hr' with rfl | hmem
          · exact absurd hr'k hrk
          · exact ⟨r', hmem, hr'k⟩
        simp only [foldRows, hs]
        exact ih m2 k a b hpr.1 hpr.2 hoff'

/-- After a successful `rowStep` on a key-unique map, the row's network is
present with exactly the row's region and network border group. -/
theorem rowStep_establishes (m m2 : PrefixMap) (r : Row)
    (hs : rowStep m r = some m2)
    (hu : ∀ kv ∈ m, ∀ kv' ∈ m, kv.1 = kv'.1 → kv = kv') :
    (∀ kv ∈ m2, kv.1 = r.net → kv.2.region = r.region ∧
      kv.2.network_border_group = r.network_border_group) ∧
      ∃ kv ∈ m2, kv.1 = r.net := by
  unfold rowStep at hs
  cases hf : m.find? fun kv => decide (kv.1 = r.net) with
  | some kv0 =>
    rw [hf] at hs
    dsimp only at hs
    by_cases hcnd : kv0.2.region = r.region ∧
        kv0.2.network_border_group = r.network_border_group
    · rw [if_pos hcnd] at hs
      cases hs
      have hkv0m : kv0 ∈ m := List.mem_of_find?_eq_some hf
      have hkv0k : kv0.1 = r.net :=
        of_decide_eq_true
          (@List.find?_some _ (fun kv => decide (kv.1 = r.net)) kv0 m hf)
      constructor
      · intro kv hkv hkvk
        unfold mapModify at hkv
        obtain ⟨kv1, hkv1, himg⟩ := List.mem_map.mp hkv
        have hk1 : kv1.1 = r.net := by
          by_cases he : kv1.1 = r.net
          · exact he
          · rw [if_neg he] at himg
            rw [himg] at he
            exact absurd hkvk he
        have heq : kv1 = kv0 := hu kv1 hkv1 kv0 hkv0m (by rw [hk1, hkv0k])
        rw [if_pos hk1] at himg
        rw [← himg, heq]
        exact hcnd
      · unfold mapModify
        refine ⟨(kv0.1, { kv0.2 with
            services := strInsert kv0.2.services r.service }),
          List.mem_map.mpr ⟨kv0, hkv0m, by rw [if_pos hkv0k]⟩, hkv0k⟩
    · rw [if_neg hcnd] at hs; cases hs
  | none =>
    rw [hf] at hs
    dsimp only at hs
    cases hs
    constructor
    · intro kv hkv hkvk
      rcases (mem_mapInsertSorted _ _ _).mp hkv with hkv' | rfl
      · have := List.find?_eq_none.mp hf kv hkv'
        simp [hkvk] at this
      · exact ⟨rfl, rfl⟩
    · exact ⟨(r.net, ⟨r.net, r.region, r.network_border_group, [r.service]⟩),
        (mem_mapInsertSorted _ _ _).mpr (Or.inr rfl), rfl⟩

/-- C6 (amended). For every decoded manifest that lists the same network more
than once with a different region or a different network border group, index
construction panics on the `assert_eq!` invariant check inside `from_json`
(it aborts; no `MalformedManifest` error value is returned to the caller —
the crate's error type has no such variant). -/
theorem c6_duplicate_conflict (j : JsonIpRanges) (l₁ l₂ l₃ : List Row)
    (r₁ r₂ : Row) (hrows : j.rows = l₁ ++ r₁ :: (l₂ ++ r₂ :: l₃))
    (hnet : r₂.net = r₁.net)
    (hdiff : r₂.region ≠ r₁.region ∨
      r₂.network_border_group ≠ r₁.network_border_group) :
    fromJson j = .panic := by
  unfold fromJson
  rw [hrows]
  suffices h : foldRows [] (l₁ ++ r₁ :: (l₂ ++ r₂ :: l₃)) = none by rw [h]
  rw [foldRows_append]
  cases h₁ : foldRows [] l₁ with
  | none => rfl
  | some m₁ =>
    have hu₁ : ∀ kv ∈ m₁, ∀ kv' ∈ m₁, kv.1 = kv'.1 → kv = kv' :=
      foldRows_unique l₁ [] m₁ h₁ (by simp)
    show foldRows m₁ (r₁ :: (l₂ ++ r₂ :: l₃)) = none
    cases hs : rowStep m₁ r₁ with
    | none => simp [foldRows, hs]
    | some m₂ =>
      simp only [foldRows, hs]
      have hest := rowStep_establishes m₁ m₂ r₁ hs hu₁
      exact foldRows_conflict (l₂ ++ r₂ :: l₃) m₂ r₁.net r₁.region
        r₁.network_border_group hest.1 hest.2
        ⟨r₂, by simp, hnet, hdiff⟩

/-- C6 is false as stated: on the conflicting-duplicate manifest,
`from_json` panics (assertion failure) rather than returning an error value
to the caller. -/
theorem c6_duplicate_conflict_cex : fromJson exDupJson = .panic := by decide

/-- Witness for C6 (amended) on the concrete conflicting manifest. -/
theorem c6_duplicate_conflict_witness :
    exDupJson.rows = [] ++ exDupRow1 :: ([] ++ exDupRow2 :: []) ∧
      fromJson exDupJson = .panic :=
  ⟨by decide,
    c6_duplicate_conflict exDupJson [] [] [] exDupRow1 exDupRow2 (by decide)
      (by decide) (by decide)⟩

/-! ## Claim C8: retry budget -/

/-- Sleep-budget invariant of the retry loop: each sleep is taken only while
`elapsed + delay` stays below the timeout, and sleeps are part of `elapsed`,
so the accumulated sleep never reaches the timeout. -/
theorem retryLoop_sleep_le (cfg : ClientConfig) (get : Nat → GetOutcome) :
    ∀ attempt elapsed slept, slept ≤ elapsed → slept ≤ cfg.retry_timeout →
      (retryLoop cfg get attempt elapsed slept).totalSleep ≤
        cfg.retry_timeout := by
  apply retryLoop.induct cfg get fun attempt elapsed slept =>
    slept ≤ elapsed → slept ≤ cfg.retry_timeout →
      (retryLoop cfg get attempt elapsed slept).totalSleep ≤ cfg.retry_timeout
  · intro a e s dur hok h1 h2
    rw [retryLoop, hok]
    exact h2
  · intro a e s d err hfail delay hcnd ih h1 h2
    rw [retryLoop, hfail]
    dsimp only
    rw [dif_pos hcnd]
    exact ih (by omega) (by omega)
  · intro a e s d err hfail delay hcnd h1 h2
    rw [retryLoop, hfail]
    dsimp only
    rw [dif_neg hcnd]
    exact h2

/-- Attempt-count bound of the retry loop, generalized over the starting
attempt index. -/
theorem retryLoop_attempts_le (cfg : ClientConfig) (get : Nat → GetOutcome) :
    ∀ attempt elapsed slept,
      (retryLoop cfg get attempt elapsed slept).attempts ≤
        max (attempt + 1) cfg.retry_count := by
  apply retryLoop.induct cfg get fun attempt elapsed slept =>
    (retryLoop cfg get attempt elapsed slept).attempts ≤
      max (attempt + 1) cfg.retry_count
  · intro a e s dur hok
    rw [retryLoop, hok]
    exact le_max_left _ _
  · intro a e s d err hfail delay hcnd ih
    rw [retryLoop, hfail]
    dsimp only
    rw [dif_pos hcnd]
    refine le_trans ih ?_
    have h2 : a + 1 + 1 ≤ cfg.retry_count := hcnd.2
    rw [Nat.max_eq_right h2]
    exact le_max_right _ _
  · intro a e s d err hfail delay hcnd
    rw [retryLoop, hfail]
    dsimp only
    rw [dif_neg hcnd]
    exact le_max_left _ _

/-- On exhaustion the retry loop surfaces the error of its last attempt. -/
theorem retryLoop_last_error (cfg : ClientConfig) (get : Nat → GetOutcome) :
    ∀ attempt elapsed slept,
      ∀ e, (retryLoop cfg get attempt elapsed slept).outcome = .error e →
        ∃ d, get ((retryLoop cfg get attempt elapsed slept).attempts - 1) =
          .fail d e := by
  apply retryLoop.induct cfg get fun attempt elapsed slept =>
    ∀ e, (retryLoop cfg get attempt elapsed slept).outcome = .error e →
      ∃ d, get ((retryLoop cfg get attempt elapsed slept).attempts - 1) =
        .fail d e
  · intro a e s dur hok err herr
    rw [retryLoop, hok] at herr
    cases herr
  · intro a e s d err hfail delay hcnd ih e' herr
    rw [retryLoop, hfail] at herr ⊢
    dsimp only at herr ⊢
    rw [dif_pos hcnd] at herr ⊢
    exact ih e' herr
  · intro a e s d err hfail delay hcnd e' herr
    rw [retryLoop, hfail] at herr ⊢
    dsimp only at herr ⊢
    rw [dif_neg hcnd] at herr ⊢
    simp only [Except.error.injEq] at herr
    subst herr
    exact ⟨d, by simpa using hfail⟩

/-- C8 (amended). For every client configuration and every trace of failing
or succeeding GET attempts, the retry loop sleeps at most `retry_timeout`
milliseconds in total, performs at most `max(retry_count, 1)` GET attempts
(the loop always performs at least one attempt, so `retry_count = 0` still
yields one GET — the strict `retry_count` bound of the original claim fails
there), and on exhaustion surfaces the error of its last attempt. -/
theorem c8_retry_budget (cfg : ClientConfig) (get : Nat → GetOutcome) :
    (retryLoop cfg get 0 0 0).totalSleep ≤ cfg.retry_timeout ∧
      (retryLoop cfg get 0 0 0).attempts ≤ max cfg.retry_count 1 ∧
      ∀ e, (retryLoop cfg get 0 0 0).outcome = .error e →
        ∃ d, get ((retryLoop cfg get 0 0 0).attempts - 1) = .fail d e := by
  refine ⟨retryLoop_sleep_le cfg get 0 0 0 (le_refl 0) (Nat.zero_le _), ?_,
    retryLoop_last_error cfg get 0 0 0⟩
  have h := retryLoop_attempts_le cfg get 0 0 0
  rw [Nat.max_comm]
  exact h

/-- C8 is false as stated: with `retry_count = 0` the loop still performs one
GET attempt, exceeding the configured count. -/
theorem c8_retry_budget_cex :
    (retryLoop exCfg0 exFailGet 0 0 0).attempts = 1 ∧
      ¬ (retryLoop exCfg0 exFailGet 0 0 0).attempts ≤ exCfg0.retry_count := by
  have h : (retryLoop exCfg0 exFailGet 0 0 0).attempts = 1 := by
    rw [retryLoop]
    rfl
  refine ⟨h, ?_⟩
  rw [h]
  decide

/-- Witness for C8 (amended) at the default configuration on an all-failing
trace. -/
theorem c8_retry_budget_witness :
    (retryLoop exCfg exFailGet 0 0 0).totalSleep ≤ exCfg.retry_timeout ∧
      (retryLoop exCfg exFailGet 0 0 0).attempts ≤ max exCfg.retry_count 1 :=
  ⟨(c8_retry_budget exCfg exFailGet).1, (c8_retry_budget exCfg exFailGet).2.1⟩

end Awsipranges
